import Mathlib

/-!
Verification development for the musiz repository: a shallow embedding of the
score data model (src/src/data_classes.py), the transposition engine
(src/src/music.py), the compact-notation adapter (src/src/abc_notation.py) and
the XML-notation adapter (src/src/musicxml.py), together with theorems settling
the specification claims.

Numeric conventions of the embedding:
* Python ints are modelled as Lean Int.  Python floor division and the
  percent operator always occur here with the positive constant divisor 12,
  where they agree with Lean's Int division and Int.emod, which we use.
* Python float values are modelled by exact rationals represented as an
  explicit numerator/denominator pair (Frac below).  Every float arising in
  the translated code paths is produced by dividing or multiplying integers,
  and on the value ranges exercised by the claims float arithmetic is exact,
  so the rational model is faithful.
-/

namespace Musiz

/-- Exact rational number as an unreduced numerator/denominator pair.  Models
Python float values produced by integer division.  Every constructor site in
the embedding yields a positive denominator, and the comparison helpers below
assume positive denominators. -/
structure Frac where
  num : Int
  den : Int
deriving DecidableEq

/-- Embed an integer as a Frac. -/
def Frac.ofInt (k : Int) : Frac := ⟨k, 1⟩

/-- Multiplication of Frac values (Python float multiplication, exact). -/
def Frac.mul (a b : Frac) : Frac := ⟨a.num * b.num, a.den * b.den⟩

/-- Decide a ≥ n/d for positive denominators, by cross-multiplication. -/
def Frac.geRat (a : Frac) (n d : Int) : Bool := n * a.den ≤ a.num * d

/-- Python round applied to the exact rational a.num/a.den (round half to
even), assuming a positive denominator. -/
def pyRound (a : Frac) : Int :=
  let f := a.num / a.den
  let r := a.num - f * a.den
  if 2 * r < a.den then f
  else if a.den < 2 * r then f + 1
  else if f % 2 = 0 then f else f + 1

/-- Python int() truncation of the exact rational a.num/a.den toward zero,
for any nonzero denominator. -/
def pyTrunc (a : Frac) : Int :=
  let n := if a.den < 0 then -a.num else a.num
  let d := if a.den < 0 then -a.den else a.den
  if 0 ≤ n then n / d else -((-n) / d)

/-- Note dataclass of src/src/data_classes.py.  Optional Python fields become
Option; the float layout hints become Option Frac. -/
structure Note where
  step : Option String := none
  octave : Option Int := none
  duration : Int := 0
  note_type : Option String := none
  voice : Option String := none
  staff : Option Int := none
  is_rest : Bool := false
  stem : Option String := none
  default_x : Option Frac := none
  default_y : Option Frac := none
deriving DecidableEq

/-- Measure dataclass of src/src/data_classes.py. -/
structure Measure where
  number : Int
  notes : List Note := []
  width : Option Frac := none
deriving DecidableEq

/-- Part dataclass of src/src/data_classes.py. -/
structure ScorePart where
  part_id : String
  name : Option String := none
  measures : List Measure := []
deriving DecidableEq

/-- Score dataclass of src/src/data_classes.py. -/
structure Score where
  title : Option String := none
  subtitle : Option String := none
  composer : Option String := none
  tempo : Option Int := none
  parts : List ScorePart := []
deriving DecidableEq

/-- Python truthiness test for an Optional[str]: None and the empty string are
falsy. -/
def strFalsy : Option String → Bool
  | none => true
  | some s => s = ""

/-- Python expression x or d for an Optional[int] x: None and 0 are falsy and
give the default. -/
def pyOr (x : Option Int) (d : Int) : Int :=
  match x with
  | none => d
  | some k => if k = 0 then d else k

/-- SEMITONE_INTERVALS dict of MusicTransformer in src/src/music.py; lookup
returns none where Python raises KeyError. -/
def SEMITONE_INTERVALS (s : String) : Option Int :=
  if s = "C" then some 0
  else if s = "D" then some 2
  else if s = "E" then some 4
  else if s = "F" then some 5
  else if s = "G" then some 7
  else if s = "A" then some 9
  else if s = "B" then some 11
  else none

/-- semitone_to_note dict inside MusicTransformer._transpose_note; lookup
returns none where Python raises KeyError. -/
def semitone_to_note (s : Int) : Option String :=
  if s = 0 then some "C"
  else if s = 1 then some "C"
  else if s = 2 then some "D"
  else if s = 3 then some "D"
  else if s = 4 then some "E"
  else if s = 5 then some "F"
  else if s = 6 then some "F"
  else if s = 7 then some "G"
  else if s = 8 then some "G"
  else if s = 9 then some "A"
  else if s = 10 then some "A"
  else if s = 11 then some "B"
  else none

/-- MusicTransformer._transpose_note of src/src/music.py.  Returns none where
the Python code raises (KeyError on a step outside the interval table).
Python's // and % here have the positive divisor 12, where they agree with
Lean's Int division and percent. -/
def transpose_note (note : Note) (semitones : Int) : Option Note :=
  if note.is_rest then
    some { step := note.step, octave := note.octave, duration := note.duration,
           note_type := note.note_type, voice := note.voice, staff := note.staff,
           is_rest := true, stem := note.stem, default_x := note.default_x,
           default_y := note.default_y }
  else if strFalsy note.step then
    some note
  else
    match note.step with
    | none => some note
    | some st =>
      match SEMITONE_INTERVALS st with
      | none => none
      | some interval =>
        let current_octave : Int := pyOr note.octave 4
        let absolute_position := current_octave * 12 + interval
        let new_position := absolute_position + semitones
        let new_octave := new_position / 12
        let new_semitone := new_position % 12
        match semitone_to_note new_semitone with
        | none => none
        | some new_step =>
          some { step := some new_step, octave := some new_octave,
                 duration := note.duration, note_type := note.note_type,
                 voice := note.voice, staff := note.staff, is_rest := false,
                 stem := note.stem, default_x := note.default_x,
                 default_y := note.default_y }

/-- Note loop of MusicTransformer.transpose over one measure's notes. -/
def transpose_notes : List Note → Int → Option (List Note)
  | [], _ => some []
  | n :: ns, s =>
    match transpose_note n s, transpose_notes ns s with
    | some n2, some ns2 => some (n2 :: ns2)
    | _, _ => none

/-- Measure loop of MusicTransformer.transpose over one part's measures. -/
def transpose_measures : List Measure → Int → Option (List Measure)
  | [], _ => some []
  | m :: ms, s =>
    match transpose_notes m.notes s, transpose_measures ms s with
    | some ns2, some ms2 =>
      some ({ number := m.number, notes := ns2, width := m.width } :: ms2)
    | _, _ => none

/-- Part loop of MusicTransformer.transpose. -/
def transpose_parts : List ScorePart → Int → Option (List ScorePart)
  | [], _ => some []
  | p :: ps, s =>
    match transpose_measures p.measures s, transpose_parts ps s with
    | some ms2, some ps2 =>
      some ({ part_id := p.part_id, name := p.name, measures := ms2 } :: ps2)
    | _, _ => none

/-- MusicTransformer.transpose (also the module-level transpose wrapper) of
src/src/music.py: copies the metadata and transposes every part. -/
def transpose (score : Score) (semitones : Int) : Option Score :=
  match transpose_parts score.parts semitones with
  | none => none
  | some ps =>
    some { title := score.title, subtitle := score.subtitle,
           composer := score.composer, tempo := score.tempo, parts := ps }

/-! Compact-notation adapter (src/src/abc_notation.py). -/

/-- ASCII apostrophe, the octave-raising marker of the compact notation. -/
def quoteChar : Char := Char.ofNat 39

/-- Numeric value of a digit string (used to model Python int() on the digit
runs admitted by the note-token grammar). -/
def digitsVal (cs : List Char) : Int :=
  cs.foldl (fun a c => a * 10 + ((c.toNat : Int) - 48)) 0

/-- Python int() on the strings reaching it in the duration-suffix code: the
conversion succeeds exactly on nonempty all-digit strings (the grammar never
produces signs or inner whitespace there); none models ValueError. -/
def pyIntDigits (cs : List Char) : Option Int :=
  if cs.isEmpty then none
  else if cs.all Char.isDigit then some (digitsVal cs)
  else none

/-- Python num, denom = duration_str.split on a slash: succeeds when the
string holds exactly one slash, splitting around it; none models the
ValueError of unpacking a split with any other number of pieces. -/
def splitOnceSlash : List Char → Option (List Char × List Char)
  | [] => none
  | c :: rest =>
    if c = '/' then
      if '/' ∈ rest then none else some ([], rest)
    else
      match splitOnceSlash rest with
      | none => none
      | some (xs, ys) => some (c :: xs, ys)

/-- Duration-suffix block of ABCNotation._parse_single_note (the branch chain
computing duration_multiplier).  Returns none exactly where the Python code
raises ZeroDivisionError (a zero denominator after a slash); the caught
ValueError fallbacks (0.5 in the slash branch, 1.0 in the digit branch) are
returned as values, as in the source. -/
def parse_duration_suffix (cs : List Char) : Option Frac :=
  match cs with
  | [] => some ⟨1, 1⟩
  | c :: rest =>
    if c = '/' then
      if rest.isEmpty then some ⟨1, 2⟩
      else
        match pyIntDigits rest with
        | none => some ⟨1, 2⟩
        | some v => if v = 0 then none else some ⟨1, v⟩
    else if c.isDigit then
      if '/' ∈ c :: rest then
        match splitOnceSlash (c :: rest) with
        | none => some ⟨1, 1⟩
        | some (as, bs) =>
          match pyIntDigits as with
          | none => some ⟨1, 1⟩
          | some a =>
            match pyIntDigits bs with
            | none => some ⟨1, 1⟩
            | some b => if b = 0 then none else some ⟨a, b⟩
      else
        match pyIntDigits (c :: rest) with
        | some v => some ⟨v, 1⟩
        | none => some ⟨1, 1⟩
    else some ⟨1, 1⟩

/-- ABCNotation._duration_to_type: classify a whole-note fraction into a
symbolic note type by thresholds. -/
def duration_to_type (d : Frac) : String :=
  if d.geRat 1 1 then "whole"
  else if d.geRat 1 2 then "half"
  else if d.geRat 1 4 then "quarter"
  else if d.geRat 1 8 then "eighth"
  else "16th"

/-- Body of ABCNotation._parse_single_note after the optional accidental has
been skipped: note letter, case-encoded octave, octave markers, duration
suffix.  The empty case is the Python None result (a bare accidental with no
letter); the outer none models an uncaught ZeroDivisionError from the
duration suffix. -/
def parse_note_body : List Char → Frac → Option (Option Note)
  | [], _ => some none
  | letter :: rest1, unit_length =>
    let step := String.mk [if letter.isLower then letter.toUpper else letter]
    let octave0 : Int := if letter.isLower then 5 else 4
    let marks := rest1.takeWhile (fun c => c = ',' ∨ c = quoteChar)
    let octave := octave0 - (marks.count ',' : Int) + (marks.count quoteChar : Int)
    let dur := rest1.drop marks.length
    match parse_duration_suffix dur with
    | none => none
    | some mult =>
      let actual_duration := unit_length.mul mult
      let ntype := duration_to_type actual_duration
      let duration_divisions := pyRound (actual_duration.mul ⟨8, 1⟩)
      some (some { step := some step, octave := some octave,
                   duration := duration_divisions, note_type := some ntype,
                   is_rest := false })

/-- ABCNotation._parse_single_note: skip an optional accidental marker, then
parse the body.  The caller always passes a nonempty token, so the empty case
(a Python IndexError) is modelled as a failure. -/
def parse_single_note (note_str : List Char) (unit_length : Frac) :
    Option (Option Note) :=
  match note_str with
  | [] => none
  | c0 :: rest0 =>
    parse_note_body (if c0 = '^' ∨ c0 = '_' ∨ c0 = '=' then rest0 else c0 :: rest0)
      unit_length

/-- Character class [A-Ga-g] of ABCNotation.NOTE_PATTERN. -/
def isNoteLetterChar (c : Char) : Bool :=
  ("ABCDEFG".data.contains c) || ("abcdefg".data.contains c)

/-- Match of the NOTE_PATTERN body after the optional accidental: one letter,
then commas, then apostrophes, then digits, an optional slash and digits.
Returns the matched characters and the remaining input.  All pieces are
greedy over disjoint character classes, so this left-to-right reading is the
regex's unique match. -/
def regexBody (bs : List Char) : Option (List Char × List Char) :=
  match bs with
  | [] => none
  | b :: bs2 =>
    if isNoteLetterChar b then
      let commas := bs2.takeWhile (fun c => c = ',')
      let r1 := bs2.drop commas.length
      let quotes := r1.takeWhile (fun c => c = quoteChar)
      let r2 := r1.drop quotes.length
      let d1 := r2.takeWhile Char.isDigit
      let r3 := r2.drop d1.length
      match r3 with
      | '/' :: t =>
        let d2 := t.takeWhile Char.isDigit
        some (b :: (commas ++ quotes ++ d1 ++ '/' :: d2), t.drop d2.length)
      | _ => some (b :: (commas ++ quotes ++ d1), r3)
    else none

/-- Anchored match of ABCNotation.NOTE_PATTERN: an optional accidental marker
followed by the pattern body.  When the leading character is an accidental but
no letter follows, the empty-accidental alternative also fails, since an
accidental is not in [A-Ga-g]. -/
def regexNoteMatch (cs : List Char) : Option (List Char × List Char) :=
  match cs with
  | [] => none
  | a :: rest =>
    if a = '_' ∨ a = '=' ∨ a = '^' then
      match regexBody rest with
      | some (m, r) => some (a :: m, r)
      | none => none
    else regexBody cs

/-- ABCNotation._extract_note: the regex match, or the fallback that takes one
character plus, when a digit follows immediately, the run of digits and
slashes after it.  Returns the token and the remaining input. -/
def extract_note (cs : List Char) : List Char × List Char :=
  match regexNoteMatch cs with
  | some (m, r) => (m, r)
  | none =>
    match cs with
    | [] => ([], [])
    | c :: rest =>
      match rest with
      | r0 :: _ =>
        if r0.isDigit then
          let run := rest.takeWhile (fun x => x.isDigit || x = '/')
          (c :: run, rest.drop run.length)
        else ([c], rest)
      | [] => ([c], [])

/-- Character class starting a note token in ABCNotation._parse_notes. -/
def isTokenStart (c : Char) : Bool := "ABCDEFGabcdefg_=^".data.contains c

/-- Scanning loop of ABCNotation._parse_notes, fuelled.  Every iteration of
the Python while-loop advances the index by at least one character, so the
entry point parse_notes below, which supplies the input length as fuel, never
reaches the fuel-exhaustion branch. -/
def parse_notes_go (fuel : Nat) (cs : List Char) (u : Frac) : Option (List Note) :=
  match fuel, cs with
  | _, [] => some []
  | 0, _ :: _ => none
  | f + 1, c :: rest =>
    if c.isWhitespace then parse_notes_go f rest u
    else if isTokenStart c then
      let e := extract_note (c :: rest)
      if e.1.isEmpty then parse_notes_go f e.2 u
      else
        match parse_single_note e.1 u with
        | none => none
        | some none => parse_notes_go f e.2 u
        | some (some note) =>
          match parse_notes_go f e.2 u with
          | none => none
          | some ns => some (note :: ns)
    else parse_notes_go f rest u

/-- ABCNotation._parse_notes: scan a measure text, collecting note tokens. -/
def parse_notes (cs : List Char) (u : Frac) : Option (List Note) :=
  parse_notes_go cs.length cs u

/-- Python str.split on a single character: keeps empty pieces, as in the
measure splitting of ABCNotation.read. -/
def splitChar (sep : Char) : List Char → List (List Char)
  | [] => [[]]
  | c :: rest =>
    match splitChar sep rest with
    | [] => if c = sep then [[], []] else [[c]]
    | g :: gs => if c = sep then [] :: g :: gs else (c :: g) :: gs

/-- Python str.strip on ASCII text: drop whitespace at both ends. -/
def trimChars (cs : List Char) : List Char :=
  ((cs.dropWhile Char.isWhitespace).reverse.dropWhile Char.isWhitespace).reverse

/-- Segment loop of ABCNotation.read (lines 61-76): each nonblank bar-split
segment is parsed; a measure is appended, and the measure number advanced,
only when the parsed note list is nonempty.  Returns the measures and the
next measure number. -/
def parse_segs : List (List Char) → Frac → Int → Option (List Measure × Int)
  | [], _, num => some ([], num)
  | seg :: rest, u, num =>
    let t := trimChars seg
    if t.isEmpty then parse_segs rest u num
    else
      match parse_notes t u with
      | none => none
      | some notes =>
        if notes.isEmpty then parse_segs rest u num
        else
          match parse_segs rest u (num + 1) with
          | none => none
          | some (ms, fin) =>
            some (({ number := num, notes := notes } : Measure) :: ms, fin)

/-- Music-line loop of ABCNotation.read (lines 59-77): split every music line
on bar characters and run the segment loop, threading the measure number. -/
def read_music_lines : List (List Char) → Frac → Int → Option (List Measure × Int)
  | [], _, num => some ([], num)
  | line :: rest, u, num =>
    match parse_segs (splitChar '|' line) u num with
    | none => none
    | some (ms1, n1) =>
      match read_music_lines rest u n1 with
      | none => none
      | some (ms2, n2) => some (ms1 ++ ms2, n2)

/-- Measures of the part built by ABCNotation.read from its music lines, for a
given unit length. -/
def read_measures (music_lines : List (List Char)) (u : Frac) :
    Option (List Measure) :=
  (read_music_lines music_lines u 1).map Prod.fst

/-- ABCNotation._duration_to_abc_suffix.  Returns none exactly where the
Python code raises: duration 0 reaches the generic branch for values below 2
and divides 2 by zero. -/
def duration_to_abc_suffix (duration : Int) : Option String :=
  if duration = 2 then some ""
  else if duration = 1 then some "/"
  else if duration = 4 then some "2"
  else if duration = 3 then some "3/2"
  else if duration = 8 then some "4"
  else if duration = 6 then some "3"
  else if duration < 2 then
    if duration = 0 then none
    else some ("/" ++ toString (pyTrunc ⟨2, duration⟩))
  else some (toString (pyTrunc ⟨duration, 2⟩))

/-- Python str.upper on the ASCII step letters stored in Note. -/
def strUpper (s : String) : String := String.mk (s.data.map Char.toUpper)

/-- Python str.lower on the ASCII step letters stored in Note. -/
def strLower (s : String) : String := String.mk (s.data.map Char.toLower)

/-- ABCNotation._note_to_abc: pitch token (octave spelled by case and
markers) plus duration suffix; none where the duration suffix raises. -/
def note_to_abc (note : Note) : Option String :=
  if note.is_rest then duration_to_abc_suffix note.duration
  else if strFalsy note.step then some ""
  else
    match note.step with
    | none => some ""
    | some stp =>
      let octave := pyOr note.octave 4
      let abc_note :=
        if octave = 4 then strUpper stp
        else if octave = 5 then strLower stp
        else if octave = 3 then strUpper stp ++ ","
        else if octave = 6 then strLower stp ++ String.mk [quoteChar]
        else if octave = 2 then strUpper stp ++ ",,"
        else strUpper stp
      match duration_to_abc_suffix note.duration with
      | none => none
      | some suf => some (abc_note ++ suf)

/-- Note loop inside ABCNotation.write: convert a measure's notes, keeping
only truthy (nonempty) strings; none when any conversion raises. -/
def note_strs : List Note → Option (List String)
  | [] => some []
  | n :: ns =>
    match note_to_abc n, note_strs ns with
    | some s, some ss => some (if s = "" then ss else s :: ss)
    | _, _ => none

/-- Measure-grouping loop of ABCNotation.write (lines 110-132): rendered
measures are joined four per line; each completed group of four is flushed
with a trailing single bar, and a leftover nonempty group is flushed at the
end with a double bar. -/
def abc_music_lines : List Measure → Nat → List String → Option (List String)
  | [], _, music_line =>
    some (if music_line.isEmpty then []
          else [String.intercalate " | " music_line ++ " ||"])
  | m :: ms, count, music_line =>
    match note_strs m.notes with
    | none => none
    | some strs =>
      if strs.isEmpty then abc_music_lines ms count music_line
      else
        let line2 := music_line ++ [String.intercalate " " strs]
        if (count + 1) % 4 = 0 then
          match abc_music_lines ms (count + 1) [] with
          | none => none
          | some rest =>
            some ((String.intercalate " | " line2 ++ " |") :: rest)
        else abc_music_lines ms (count + 1) line2

/-- Music lines emitted by ABCNotation.write for the measures of the first
part. -/
def abc_write_music (measures : List Measure) : Option (List String) :=
  abc_music_lines measures 0 []

/-- Rendered measure strings, in order: the joined token string of every
measure whose note conversion yields at least one nonempty token.  Helper for
stating the grouping property. -/
def rendered_measures : List Measure → Option (List String)
  | [] => some []
  | m :: ms =>
    match note_strs m.notes, rendered_measures ms with
    | some strs, some rest =>
      some (if strs.isEmpty then rest
            else String.intercalate " " strs :: rest)
    | _, _ => none

/-- Grouping stated from the specification's words (§4.3 Write): measures
four per line, a single bar after a complete group, a double bar after the
final group. -/
def spec_lines : List String → List String
  | [] => []
  | a :: b :: c :: d :: rest =>
    (String.intercalate " | " [a, b, c, d] ++ " |") :: spec_lines rest
  | rs => [String.intercalate " | " rs ++ " ||"]

/-! XML-notation adapter (src/src/musicxml.py).  Element trees are modelled
structurally; find and findall search direct children only, as in
xml.etree.ElementTree. -/

/-- Element of the document tree: tag, attributes, children, text. -/
inductive XElem where
  | mk : String → List (String × String) → List XElem → Option String → XElem

/-- Tag of an element. -/
def XElem.tag : XElem → String
  | .mk t _ _ _ => t

/-- Attribute list of an element. -/
def XElem.attrs : XElem → List (String × String)
  | .mk _ a _ _ => a

/-- Children of an element. -/
def XElem.children : XElem → List XElem
  | .mk _ _ c _ => c

/-- Text of an element (ElementTree text, possibly absent). -/
def XElem.text : XElem → Option String
  | .mk _ _ _ x => x

/-- Element.get: look up an attribute. -/
def XElem.get (e : XElem) (key : String) : Option String :=
  (e.attrs.find? (fun p => p.1 = key)).map Prod.snd

/-- Element.find: first direct child with the given tag. -/
def XElem.find (e : XElem) (t : String) : Option XElem :=
  e.children.find? (fun c => c.tag = t)

/-- Element.findall: all direct children with the given tag. -/
def XElem.findall (e : XElem) (t : String) : List XElem :=
  e.children.filter (fun c => c.tag = t)

/-- Text of an optional element, when both are present. -/
def optText (o : Option XElem) : Option String := o.bind XElem.text

/-- Python int() on the attribute and element texts of the XML adapter:
optional surrounding whitespace, an optional sign, then digits; none models
ValueError. -/
def pyInt (s : String) : Option Int :=
  match trimChars s.data with
  | '-' :: ds => (pyIntDigits ds).map (fun v => -v)
  | '+' :: ds => pyIntDigits ds
  | ds => pyIntDigits ds

/-- Python float() on the decimal literals occurring as XML width and
position attributes: optional sign, digits, an optional point and digits,
with at least one digit present; none models ValueError.  (Python float also
accepts exponents and special words, which never occur in this adapter's
inputs of interest.) -/
def pyFloat (s : String) : Option Frac :=
  let core : List Char → Option Frac := fun ds =>
    let d1 := ds.takeWhile Char.isDigit
    let r := ds.drop d1.length
    match r with
    | [] => if d1.isEmpty then none else some ⟨digitsVal d1, 1⟩
    | '.' :: d2 =>
      if d2.all Char.isDigit ∧ ¬(d1.isEmpty ∧ d2.isEmpty) then
        some ⟨digitsVal d1 * (10 : Int) ^ d2.length + digitsVal d2,
              (10 : Int) ^ d2.length⟩
      else none
    | _ => none
  match trimChars s.data with
  | '-' :: ds => (core ds).map (fun f => ⟨-f.num, f.den⟩)
  | '+' :: ds => core ds
  | ds => core ds

/-- Truthiness filter Python applies to element text before conversion:
present and nonempty. -/
def truthyText (o : Option String) : Option String :=
  match o with
  | some s => if s = "" then none else some s
  | none => none

/-- MusicXML._parse_note: build a Note from a note element; none where an
int() or float() conversion raises. -/
def parse_note_xml (e : XElem) : Option Note :=
  let is_rest := (e.find "rest").isSome
  let pitch := if is_rest then none else e.find "pitch"
  let stepv :=
    match pitch with
    | some p => truthyText (optText (p.find "step"))
    | none => none
  let octaveTxt :=
    match pitch with
    | some p => truthyText (optText (p.find "octave"))
    | none => none
  match (match octaveTxt with
         | none => some none
         | some t => (pyInt t).map some) with
  | none => none
  | some octv =>
    match (match truthyText (optText (e.find "duration")) with
           | none => some 0
           | some t => pyInt t) with
    | none => none
    | some dur =>
      let ntype := optText (e.find "type")
      let voicev := optText (e.find "voice")
      match (match truthyText (optText (e.find "staff")) with
             | none => some none
             | some t => (pyInt t).map some) with
      | none => none
      | some staffv =>
        let stemv := optText (e.find "stem")
        match (match e.get "default-x" with
               | none => some none
               | some s => if s = "" then some none else (pyFloat s).map some) with
        | none => none
        | some dxv =>
          match (match e.get "default-y" with
                 | none => some none
                 | some s => if s = "" then some none else (pyFloat s).map some) with
          | none => none
          | some dyv =>
            some { step := stepv, octave := octv, duration := dur,
                   note_type := ntype, voice := voicev, staff := staffv,
                   is_rest := is_rest, stem := stemv,
                   default_x := dxv, default_y := dyv }

/-- Note loop of MusicXML.read for one measure element. -/
def parse_notes_xml : List XElem → Option (List Note)
  | [] => some []
  | e :: es =>
    match parse_note_xml e, parse_notes_xml es with
    | some n, some ns => some (n :: ns)
    | _, _ => none

/-- Measure loop of MusicXML.read (lines 58-75): elements without a truthy
number attribute are skipped; every surviving measure element is appended,
whether or not it contains any note. -/
def xml_measures : List XElem → Option (List Measure)
  | [] => some []
  | me :: rest =>
    match me.get "number" with
    | none => xml_measures rest
    | some nstr =>
      if nstr = "" then xml_measures rest
      else
        match pyInt nstr with
        | none => none
        | some num =>
          match (match me.get "width" with
                 | none => some none
                 | some w => if w = "" then some none else (pyFloat w).map some) with
          | none => none
          | some widthv =>
            match parse_notes_xml (me.findall "note") with
            | none => none
            | some notes =>
              match xml_measures rest with
              | none => none
              | some ms =>
                some ({ number := num, notes := notes, width := widthv } :: ms)

/-- Measures parsed by MusicXML.read from one part element. -/
def xml_part_measures (part_elem : XElem) : Option (List Measure) :=
  xml_measures (part_elem.findall "measure")

/-- Python str() applied to an Optional[int] (the octave text written by the
XML writer). -/
def pyStrOptInt : Option Int → String
  | none => "None"
  | some k => toString k

/-- MusicXML._write_note: the note element appended to a measure.  Total: the
writer emits a duration element for every duration, including 0. -/
def xml_write_note (note : Note) : XElem :=
  let headC : List XElem :=
    if note.is_rest then [XElem.mk "rest" [] [] none]
    else [XElem.mk "pitch" []
            [XElem.mk "step" [] [] note.step,
             XElem.mk "octave" [] [] (some (pyStrOptInt note.octave))] none]
  let durC := [XElem.mk "duration" [] [] (some (toString note.duration))]
  let typeC :=
    match note.note_type with
    | some t => if t = "" then [] else [XElem.mk "type" [] [] (some t)]
    | none => []
  let dotC :=
    if note.duration = 3 ∨ note.duration = 6 ∨ note.duration = 12 then
      [XElem.mk "dot" [] [] none]
    else []
  let voiceText :=
    match note.voice with
    | some v => if v = "" then "1" else v
    | none => "1"
  let voiceC := [XElem.mk "voice" [] [] (some voiceText)]
  XElem.mk "note" [] (headC ++ durC ++ typeC ++ dotC ++ voiceC) none

/-! Validity predicates and concrete inputs used by the claim theorems. -/

/-- Notes on which _transpose_note cannot raise: rests, notes with a falsy
step, and notes whose step is a key of SEMITONE_INTERVALS. -/
def note_ok (n : Note) : Bool :=
  n.is_rest || strFalsy n.step ||
    (match n.step with
     | some st => (SEMITONE_INTERVALS st).isSome
     | none => false)

/-- All notes of a measure satisfy note_ok. -/
def measure_ok (m : Measure) : Bool := m.notes.all note_ok

/-- All measures of a part satisfy measure_ok. -/
def part_ok (p : ScorePart) : Bool := p.measures.all measure_ok

/-- All parts of a score satisfy part_ok. -/
def score_ok (s : Score) : Bool := s.parts.all part_ok

/-- Duration-suffix language admitted by group 3 of NOTE_PATTERN: digits, an
optional slash, digits. -/
def suffix_in_grammar (cs : List Char) : Bool :=
  match cs.dropWhile Char.isDigit with
  | [] => true
  | c :: r => c == '/' && r.all Char.isDigit

/-- Characters after the first slash of a duration suffix (empty when no
slash occurs). -/
def afterSlash : List Char → List Char
  | [] => []
  | c :: rest => if c = '/' then rest else afterSlash rest

/-- Duration-suffix characters of a token body: what remains after the
letter and the octave markers. -/
def body_suffix : List Char → List Char
  | [] => []
  | _ :: rest1 =>
    rest1.drop ((rest1.takeWhile (fun c => c = ',' ∨ c = quoteChar)).length)

/-- Duration-suffix characters of a note token: everything after the optional
accidental, the letter and the octave markers. -/
def token_suffix (note_str : List Char) : List Char :=
  match note_str with
  | [] => []
  | c0 :: rest0 =>
    body_suffix (if c0 = '^' ∨ c0 = '_' ∨ c0 = '=' then rest0 else c0 :: rest0)

/-- Score with a non-rest note whose step is not a natural letter name. -/
def c1_bad_score : Score :=
  { parts := [{ part_id := "P1",
                measures := [{ number := 1,
                               notes := [{ step := some "H", octave := some 4,
                                           duration := 2, is_rest := false }] }] }] }

/-- Well-formed one-measure score for the C1 witness. -/
def c1_good_score : Score :=
  { title := some "t",
    parts := [{ part_id := "P1",
                measures := [{ number := 1,
                               notes := [{ step := some "E", octave := some 3,
                                           duration := 4, is_rest := false },
                                         { is_rest := true, duration := 2 }] }] }] }

/-- Quarter note at a given step and octave 4 (scenario input of C4). -/
def quarterNote (st : String) : Note :=
  { step := some st, octave := some 4, duration := 2, note_type := some "quarter" }

/-- Scenario measure F4 F4 G4 A4 of claim C4. -/
def c4_measure : Measure :=
  { number := 1, notes := [quarterNote "F", quarterNote "F",
                           quarterNote "G", quarterNote "A"] }

/-- Pitched note at octave 0, on which the transposition formula of C4 fails. -/
def c4_oct0_note : Note :=
  { step := some "C", octave := some 0, duration := 2, note_type := some "quarter" }

/-- Witness note for C4. -/
def c4_note : Note := quarterNote "F"

/-- Pitched note with absent octave, on which transposition by 0 changes the
octave field (claim C5). -/
def c5_noct_note : Note :=
  { step := some "C", octave := none, duration := 2, note_type := some "quarter" }

/-- Witness note for C5. -/
def c5_note : Note :=
  { step := some "D", octave := some 5, duration := 1, note_type := some "eighth" }

/-- Image of c5_note under transposition by 0. -/
def c5_note_out : Note :=
  { step := some "D", octave := some 5, duration := 1, note_type := some "eighth" }

/-- Non-rest note with absent step (claim C10 witness). -/
def c10_note : Note :=
  { step := none, octave := some 4, duration := 3, note_type := some "quarter",
    voice := some "1", staff := some 2, is_rest := false, stem := some "up" }

/-- Zero-length rest (grace/zero-length note of claim C2). -/
def c2_rest : Note := { is_rest := true, duration := 0 }

/-- Zero-length pitched note of claim C2. -/
def c2_pitched : Note := { step := some "C", octave := some 4, duration := 0 }

/-- Token whose rounding crosses a classification threshold (claim C8). -/
def c8_token : List Char := ['C', '7', '/', '4']

/-- Note the compact-notation reader builds from c8_token at unit length
1/8. -/
def c8_note : Note :=
  { step := some "C", octave := some 4, duration := 2,
    note_type := some "eighth", is_rest := false }

/-- XML part element holding a single measure element with no notes (claim
C3 counterexample). -/
def c3_single_part : XElem :=
  XElem.mk "part" [("id", "P1")]
    [XElem.mk "measure" [("number", "1")] [] none] none

/-- XML note element: pitch C4, duration 2, type quarter. -/
def c3_xml_note : XElem :=
  XElem.mk "note" []
    [XElem.mk "pitch" []
       [XElem.mk "step" [] [] (some "C"),
        XElem.mk "octave" [] [] (some "4")] none,
     XElem.mk "duration" [] [] (some "2"),
     XElem.mk "type" [] [] (some "quarter")] none

/-- XML part element with one populated measure and one empty measure. -/
def c3_two_measure_part : XElem :=
  XElem.mk "part" [("id", "P1")]
    [XElem.mk "measure" [("number", "1")] [c3_xml_note] none,
     XElem.mk "measure" [("number", "2")] [] none] none

/-- Note parsed from c3_xml_note. -/
def c3_parsed_note : Note :=
  { step := some "C", octave := some 4, duration := 2,
    note_type := some "quarter", voice := none, is_rest := false }

/-- Compact-notation music line with one note-bearing segment, one blank
segment and one segment of unrecognized characters. -/
def c3_lines : List (List Char) := ["C D | | zz".data]

/-- Measure the compact-notation reader builds from c3_lines at unit length
1/4. -/
def c3_abc_measure : Measure :=
  { number := 1,
    notes := [{ step := some "C", octave := some 4, duration := 2,
                note_type := some "quarter", is_rest := false },
              { step := some "D", octave := some 4, duration := 2,
                note_type := some "quarter", is_rest := false }] }

/-- One-note measure rendered as the single token C by the compact-notation
writer (claim C7). -/
def c7_measure : Measure :=
  { number := 1, notes := [{ step := some "C", octave := some 4, duration := 2 }] }

/-! Helper lemmas shared by the claim theorems. -/

/-- Inversion of a successful SEMITONE_INTERVALS lookup. -/
lemma SEMITONE_INTERVALS_cases {st : String} {o : Int}
    (h : SEMITONE_INTERVALS st = some o) :
    (st = "C" ∧ o = 0) ∨ (st = "D" ∧ o = 2) ∨ (st = "E" ∧ o = 4) ∨
    (st = "F" ∧ o = 5) ∨ (st = "G" ∧ o = 7) ∨ (st = "A" ∧ o = 9) ∨
    (st = "B" ∧ o = 11) := by
  unfold SEMITONE_INTERVALS at h
  split_ifs at h <;> simp_all

/-- The semitone-to-letter table is total on 0..11. -/
lemma semitone_to_note_isSome {s : Int} (h0 : 0 ≤ s) (h1 : s < 12) :
    (semitone_to_note s).isSome = true := by
  unfold semitone_to_note
  interval_cases s <;> simp

/-- A note satisfying note_ok is transposed without error. -/
lemma transpose_note_isSome (n : Note) (s : Int) (h : note_ok n = true) :
    (transpose_note n s).isSome = true := by
  unfold note_ok at h
  unfold transpose_note
  by_cases hr : n.is_rest
  · simp [hr]
  · by_cases hf : strFalsy n.step
    · simp [hr, hf]
    · simp only [hr, hf, Bool.false_or] at h
      cases hstep : n.step with
      | none => simp [strFalsy, hstep] at hf
      | some st =>
        rw [hstep] at h
        cases hI : SEMITONE_INTERVALS st with
        | none => simp [hI] at h
        | some interval =>
          have hm0 : 0 ≤ (pyOr n.octave 4 * 12 + interval + s) % 12 :=
            Int.emod_nonneg _ (by norm_num)
          have hm1 : (pyOr n.octave 4 * 12 + interval + s) % 12 < 12 :=
            Int.emod_lt_of_pos _ (by norm_num)
          have htot := semitone_to_note_isSome hm0 hm1
          cases hS : semitone_to_note ((pyOr n.octave 4 * 12 + interval + s) % 12) with
          | none => simp [hS] at htot
          | some ns =>
            rw [hstep] at hf
            simp [hr, hf, hstep, hI, hS]

/-- Note-list version of transpose_note_isSome. -/
lemma transpose_notes_isSome (ns : List Note) (s : Int)
    (h : ns.all note_ok = true) : (transpose_notes ns s).isSome = true := by
  induction ns with
  | nil => simp [transpose_notes]
  | cons n rest ih =>
    rw [List.all_cons, Bool.and_eq_true] at h
    have h1 := transpose_note_isSome n s h.1
    have h2 := ih h.2
    rw [Option.isSome_iff_exists] at h1 h2
    obtain ⟨n2, hn2⟩ := h1
    obtain ⟨ns2, hns2⟩ := h2
    simp [transpose_notes, hn2, hns2]

/-- Measure-list version of transpose_note_isSome. -/
lemma transpose_measures_isSome (ms : List Measure) (s : Int)
    (h : ms.all measure_ok = true) : (transpose_measures ms s).isSome = true := by
  induction ms with
  | nil => simp [transpose_measures]
  | cons m rest ih =>
    rw [List.all_cons, Bool.and_eq_true] at h
    have h1 := transpose_notes_isSome m.notes s h.1
    have h2 := ih h.2
    rw [Option.isSome_iff_exists] at h1 h2
    obtain ⟨x, hx⟩ := h1
    obtain ⟨y, hy⟩ := h2
    simp [transpose_measures, hx, hy]

/-- Part-list version of transpose_note_isSome. -/
lemma transpose_parts_isSome (ps : List ScorePart) (s : Int)
    (h : ps.all part_ok = true) : (transpose_parts ps s).isSome = true := by
  induction ps with
  | nil => simp [transpose_parts]
  | cons p rest ih =>
    rw [List.all_cons, Bool.and_eq_true] at h
    have h1 := transpose_measures_isSome p.measures s h.1
    have h2 := ih h.2
    rw [Option.isSome_iff_exists] at h1 h2
    obtain ⟨x, hx⟩ := h1
    obtain ⟨y, hy⟩ := h2
    simp [transpose_parts, hx, hy]

/-! Claim theorems. -/

/-- C1 (amended): transpose never fails on a Score whose non-rest notes all
have a falsy step or a step among the seven natural letter names; without
that restriction the claim is false (see C1_counterexample). -/
theorem C1_transpose_total_on_valid_steps :
    ∀ (score : Score) (semitones : Int), score_ok score = true →
      (transpose score semitones).isSome = true := by
  intro score s h
  unfold score_ok at h
  have hp := transpose_parts_isSome score.parts s h
  rw [Option.isSome_iff_exists] at hp
  obtain ⟨ps, hps⟩ := hp
  simp [transpose, hps]

/-- C1 witness: the amended theorem applied to a concrete well-formed score. -/
theorem C1_witness : (transpose c1_good_score 7).isSome = true :=
  C1_transpose_total_on_valid_steps c1_good_score 7 (by decide)

/-- C1 counterexample: a Score containing a non-rest note with step H (any
optional string is allowed by the model) makes transpose fail, where the
Python code raises KeyError, so transposition does not succeed for every
Score. -/
theorem C1_counterexample : transpose c1_bad_score 0 = none := by decide

/-- C10: a non-rest note whose step is absent is returned by _transpose_note
unchanged, with every field intact, for every semitone offset. -/
theorem C10_stepless_note_unchanged :
    ∀ (n : Note) (d : Int), n.is_rest = false → n.step = none →
      transpose_note n d = some n := by
  intro n d hr hs
  simp [transpose_note, hr, strFalsy, hs]

/-- C10 witness: the theorem applied to a concrete stepless note. -/
theorem C10_witness : transpose_note c10_note (-31) = some c10_note :=
  C10_stepless_note_unchanged c10_note (-31) rfl rfl

/-- C4 (amended): for a pitched note with a natural-letter step and a nonzero
integer octave k, transposition by d semitones computes p = k*12 + offset + d,
takes the floor quotient as the new octave and maps p mod 12 through the
semitone-to-letter table; floor semantics give -1 / 12 = -1 with remainder 11;
the concrete measure F4 F4 G4 A4 becomes G4 G4 A4 B4 under +2 and C4 C4 D4 E4
under -5.  For octave 0 the code substitutes 4 (see C4_counterexample), so
the claim's formula holds only for nonzero octaves. -/
theorem C4_transposition_formula :
    (∀ (n : Note) (st : String) (o k d : Int),
        n.is_rest = false → n.step = some st → SEMITONE_INTERVALS st = some o →
        n.octave = some k → k ≠ 0 →
        transpose_note n d =
          some { n with step := semitone_to_note ((k * 12 + o + d) % 12),
                        octave := some ((k * 12 + o + d) / 12),
                        is_rest := false })
    ∧ ((-1 : Int) / 12 = -1 ∧ (-1 : Int) % 12 = 11)
    ∧ transpose_measures [c4_measure] 2 =
        some [{ number := 1, notes := [quarterNote "G", quarterNote "G",
                                       quarterNote "A", quarterNote "B"] }]
    ∧ transpose_measures [c4_measure] (-5) =
        some [{ number := 1, notes := [quarterNote "C", quarterNote "C",
                                       quarterNote "D", quarterNote "E"] }] := by
  refine ⟨?_, by decide, by decide, by decide⟩
  intro n st o k d hr hstep hI hoct hk
  have hfalsy : strFalsy (some st) = false := by
    rcases SEMITONE_INTERVALS_cases hI with ⟨h1, _⟩ | ⟨h1, _⟩ | ⟨h1, _⟩ |
      ⟨h1, _⟩ | ⟨h1, _⟩ | ⟨h1, _⟩ | ⟨h1, _⟩ <;> simp [h1, strFalsy]
  have hpy : pyOr n.octave 4 = k := by simp [pyOr, hoct, hk]
  have hmS := semitone_to_note_isSome
    (Int.emod_nonneg (k * 12 + o + d) (by norm_num))
    (Int.emod_lt_of_pos (k * 12 + o + d) (by norm_num))
  rw [Option.isSome_iff_exists] at hmS
  obtain ⟨ns, hns⟩ := hmS
  simp [transpose_note, hr, hstep, hfalsy, hI, hpy, hns]

/-- C4 witness: the formula of the amended theorem applied to F4 with offset
3 yields G4. -/
theorem C4_witness :
    transpose_note c4_note 3 =
      some { c4_note with step := some "G", octave := some 4 } := by
  have h := C4_transposition_formula.1 c4_note "F" 5 4 3 rfl rfl
    (by decide) rfl (by decide)
  exact h.trans (by decide)

/-- C4 counterexample: at octave 0 the claimed formula predicts new octave
(0*12+0+0)/12 = 0, but the code treats octave 0 as falsy and substitutes 4,
returning octave 4. -/
theorem C4_counterexample :
    transpose_note c4_oct0_note 0 ≠
      some { c4_oct0_note with
             step := semitone_to_note ((0 * 12 + 0 + 0) % 12),
             octave := some ((0 * 12 + 0 + 0) / 12), is_rest := false } ∧
    transpose_note c4_oct0_note 0 = some { c4_oct0_note with octave := some 4 } := by
  constructor <;> decide

/-- C5 (amended): transposing a note by 0 semitones preserves step, duration
and note_type always, and preserves the octave for rests, stepless notes and
pitched notes with a nonzero concrete octave; a pitched note whose octave is
None (or 0) comes back with octave 4 (see C5_counterexample). -/
theorem C5_transpose_zero_preserves_note_values :
    ∀ (n m : Note), transpose_note n 0 = some m →
      m.step = n.step ∧ m.duration = n.duration ∧ m.note_type = n.note_type ∧
      (∀ k : Int, n.octave = some k → k ≠ 0 → m.octave = some k) ∧
      (n.is_rest = true ∨ strFalsy n.step = true → m.octave = n.octave) := by
  intro n m h
  unfold transpose_note at h
  by_cases hr : n.is_rest
  · rw [if_pos hr] at h
    injection h with h
    subst h
    exact ⟨rfl, rfl, rfl, fun k hk _ => hk, fun _ => rfl⟩
  · rw [if_neg hr] at h
    by_cases hf : strFalsy n.step
    · rw [if_pos hf] at h
      injection h with h
      subst h
      exact ⟨rfl, rfl, rfl, fun k hk _ => hk, fun _ => rfl⟩
    · rw [if_neg hf] at h
      cases hstep : n.step with
      | none => rw [hstep] at hf; simp [strFalsy] at hf
      | some st =>
        simp only [hstep] at h
        cases hI : SEMITONE_INTERVALS st with
        | none => simp [hI] at h
        | some o =>
          simp only [hI] at h
          have hcases := SEMITONE_INTERVALS_cases hI
          have hsn : semitone_to_note o = some st := by
            rcases hcases with ⟨h1, h2⟩ | ⟨h1, h2⟩ | ⟨h1, h2⟩ | ⟨h1, h2⟩ |
              ⟨h1, h2⟩ | ⟨h1, h2⟩ | ⟨h1, h2⟩ <;> subst h1 <;> subst h2 <;> decide
          have hb : 0 ≤ o ∧ o < 12 := by
            rcases hcases with ⟨_, h2⟩ | ⟨_, h2⟩ | ⟨_, h2⟩ | ⟨_, h2⟩ |
              ⟨_, h2⟩ | ⟨_, h2⟩ | ⟨_, h2⟩ <;> omega
          obtain ⟨hb0, hb1⟩ := hb
          have hmod : (pyOr n.octave 4 * 12 + o + 0) % 12 = o := by omega
          have hdiv : (pyOr n.octave 4 * 12 + o + 0) / 12 = pyOr n.octave 4 := by
            omega
          simp only [hmod, hdiv, hsn] at h
          injection h with h
          subst h
          refine ⟨rfl, rfl, rfl, ?_, ?_⟩
          · intro k hk hknz
            simp [hk, pyOr, hknz]
          · intro hcon
            rw [hstep] at hf
            rcases hcon with hc | hc
            · exact absurd hc hr
            · exact absurd hc hf

/-- C5 witness: the preservation theorem applied to a concrete D5 eighth
note. -/
theorem C5_witness : c5_note_out.octave = some 5 ∧ c5_note_out.step = c5_note.step := by
  have h := C5_transpose_zero_preserves_note_values c5_note c5_note_out (by decide)
  exact ⟨h.2.2.2.1 5 rfl (by decide), h.1⟩

/-- C5 counterexample: a pitched note with absent octave is not returned with
identical field values by transpose by 0; its octave comes back as 4. -/
theorem C5_counterexample :
    transpose_note c5_noct_note 0 ≠ some c5_noct_note ∧
    transpose_note c5_noct_note 0 =
      some { c5_noct_note with octave := some 4, is_rest := false } := by
  constructor <;> decide

/-- C2: on a zero-duration note the XML writer emits a duration element with
text 0, but the compact-notation writer does not produce a duration suffix:
_duration_to_abc_suffix reaches the generic branch for durations below 2 and
divides 2 by 0 (ZeroDivisionError), so serialization of a grace note raises
in the compact adapter, against the stated invariant. -/
theorem C2_zero_duration_serialization :
    duration_to_abc_suffix 0 = none ∧
    note_to_abc c2_rest = none ∧
    note_to_abc c2_pitched = none ∧
    ((xml_write_note c2_rest).find "duration").bind XElem.text = some "0" ∧
    ((xml_write_note c2_pitched).find "duration").bind XElem.text = some "0" := by
  refine ⟨by decide, by decide, by decide, by decide, by decide⟩

/-- C6: each internal duration in the fixed table 1, 2, 3, 4, 6, 8 encodes to
its compact-notation suffix, and decoding that suffix (suffix multiplier
combined with the writer's 1/4 unit length, then rounded through the codec's
units conversion) returns exactly the original value. -/
theorem C6_duration_round_trip :
    (duration_to_abc_suffix 1 = some "/" ∧
     parse_duration_suffix "/".data = some ⟨1, 2⟩ ∧
     pyRound (((⟨1, 4⟩ : Frac).mul ⟨1, 2⟩).mul ⟨8, 1⟩) = 1) ∧
    (duration_to_abc_suffix 2 = some "" ∧
     parse_duration_suffix "".data = some ⟨1, 1⟩ ∧
     pyRound (((⟨1, 4⟩ : Frac).mul ⟨1, 1⟩).mul ⟨8, 1⟩) = 2) ∧
    (duration_to_abc_suffix 3 = some "3/2" ∧
     parse_duration_suffix "3/2".data = some ⟨3, 2⟩ ∧
     pyRound (((⟨1, 4⟩ : Frac).mul ⟨3, 2⟩).mul ⟨8, 1⟩) = 3) ∧
    (duration_to_abc_suffix 4 = some "2" ∧
     parse_duration_suffix "2".data = some ⟨2, 1⟩ ∧
     pyRound (((⟨1, 4⟩ : Frac).mul ⟨2, 1⟩).mul ⟨8, 1⟩) = 4) ∧
    (duration_to_abc_suffix 6 = some "3" ∧
     parse_duration_suffix "3".data = some ⟨3, 1⟩ ∧
     pyRound (((⟨1, 4⟩ : Frac).mul ⟨3, 1⟩).mul ⟨8, 1⟩) = 6) ∧
    (duration_to_abc_suffix 8 = some "4" ∧
     parse_duration_suffix "4".data = some ⟨4, 1⟩ ∧
     pyRound (((⟨1, 4⟩ : Frac).mul ⟨4, 1⟩).mul ⟨8, 1⟩) = 8) := by
  refine ⟨by decide, by decide, by decide, by decide, by decide, by decide⟩

/-- C8 (amended): the note_type stored by the compact-notation reader
classifies the pre-rounding duration, unit length times suffix multiplier;
the stored internal duration is the rounding of that value times 8.  The two
classifications disagree when rounding crosses a threshold (see
C8_counterexample), so note_type does not always equal the classification of
units / 8. -/
theorem C8_note_type_classifies_preround_duration :
    ∀ (cs : List Char) (u : Frac) (n : Note) (m : Frac),
      parse_single_note cs u = some (some n) →
      parse_duration_suffix (token_suffix cs) = some m →
      n.note_type = some (duration_to_type (u.mul m)) ∧
      n.duration = pyRound ((u.mul m).mul ⟨8, 1⟩) := by
  intro cs u n m h hm
  cases cs with
  | nil => simp [parse_single_note] at h
  | cons c0 rest0 =>
    simp only [parse_single_note] at h
    simp only [token_suffix] at hm
    by_cases hacc : c0 = '^' ∨ c0 = '_' ∨ c0 = '='
    · rw [if_pos hacc] at h hm
      cases rest0 with
      | nil => simp [parse_note_body] at h
      | cons letter rest1 =>
        simp only [parse_note_body] at h
        simp only [body_suffix] at hm
        rw [hm] at h
        simp only [Option.some.injEq] at h
        subst h
        exact ⟨rfl, rfl⟩
    · rw [if_neg hacc] at h hm
      simp only [parse_note_body] at h
      simp only [body_suffix] at hm
      rw [hm] at h
      simp only [Option.some.injEq] at h
      subst h
      exact ⟨rfl, rfl⟩

/-- C8 witness: the amended theorem applied to the token C7/4 at unit length
1/8. -/
theorem C8_witness :
    c8_note.note_type = some (duration_to_type ((⟨1, 8⟩ : Frac).mul ⟨7, 4⟩)) ∧
    c8_note.duration = pyRound (((⟨1, 8⟩ : Frac).mul ⟨7, 4⟩).mul ⟨8, 1⟩) :=
  C8_note_type_classifies_preround_duration c8_token ⟨1, 8⟩ c8_note ⟨7, 4⟩
    (by decide) (by decide)

/-- C8 counterexample: parsing C7/4 at unit length 1/8 stores note_type
eighth (the pre-rounding duration 7/32 classifies as eighth) while the stored
internal duration 2 converts back to 2/8, which classifies as quarter, so the
stored type differs from the classification of the stored duration. -/
theorem C8_counterexample :
    parse_single_note c8_token ⟨1, 8⟩ = some (some c8_note) ∧
    c8_note.note_type = some "eighth" ∧
    duration_to_type ⟨c8_note.duration, 8⟩ = "quarter" ∧
    some (duration_to_type ⟨c8_note.duration, 8⟩) ≠ c8_note.note_type := by
  refine ⟨by decide, by decide, by decide, by decide⟩

/-- The slash character is not a digit, so digit runs never contain it. -/
lemma not_slash_mem_of_digits {ds : List Char} (hd : ds.all Char.isDigit = true) :
    '/' ∉ ds := by
  intro hmem
  rw [List.all_eq_true] at hd
  exact absurd (hd '/' hmem) (by decide)

/-- pyIntDigits succeeds on a nonempty digit run. -/
lemma pyIntDigits_of_digits {ds : List Char} (hne : ds ≠ [])
    (hd : ds.all Char.isDigit = true) : pyIntDigits ds = some (digitsVal ds) := by
  cases ds with
  | nil => exact absurd rfl hne
  | cons a t => simp [pyIntDigits, hd]

/-- splitOnceSlash around the unique slash of its input. -/
lemma splitOnceSlash_append {as bs : List Char} (ha : '/' ∉ as) (hb : '/' ∉ bs) :
    splitOnceSlash (as ++ '/' :: bs) = some (as, bs) := by
  induction as with
  | nil =>
    simp only [List.nil_append, splitOnceSlash]
    simp [hb]
  | cons a t ih =>
    have hane : ¬(a = '/') := by
      intro e
      exact ha (by simp [e])
    have ht : '/' ∉ t := fun hmem => ha (by simp [hmem])
    simp only [List.cons_append, splitOnceSlash]
    rw [if_neg hane]
    simp [List.append_eq, ih ht]

/-- afterSlash returns what follows the first slash. -/
lemma afterSlash_append {as : List Char} (bs : List Char) (ha : '/' ∉ as) :
    afterSlash (as ++ '/' :: bs) = bs := by
  induction as with
  | nil => simp [afterSlash]
  | cons a t ih =>
    have hane : ¬(a = '/') := fun e => ha (by simp [e])
    simp only [List.cons_append, afterSlash]
    rw [if_neg hane]
    exact ih (fun hmem => ha (by simp [hmem]))

/-- Suffix of a slash followed by a nonzero digit run: reciprocal multiplier. -/
lemma psuffix_slash_digits {ds : List Char} (hne : ds ≠ [])
    (hd : ds.all Char.isDigit = true) (hz : digitsVal ds ≠ 0) :
    parse_duration_suffix ('/' :: ds) = some ⟨1, digitsVal ds⟩ := by
  have hie : ds.isEmpty = false := by
    cases ds with
    | nil => exact absurd rfl hne
    | cons _ _ => rfl
  simp [parse_duration_suffix, hie, pyIntDigits_of_digits hne hd, hz]

/-- Suffix of a bare digit run: integer multiplier. -/
lemma psuffix_digits {ds : List Char} (hne : ds ≠ [])
    (hd : ds.all Char.isDigit = true) :
    parse_duration_suffix ds = some ⟨digitsVal ds, 1⟩ := by
  cases ds with
  | nil => exact absurd rfl hne
  | cons a t =>
    have had : a.isDigit = true := by
      rw [List.all_cons, Bool.and_eq_true] at hd
      exact hd.1
    have hane : ¬(a = '/') := by
      intro e
      rw [e] at had
      exact absurd had (by decide)
    have hmem : ¬('/' ∈ a :: t) := not_slash_mem_of_digits hd
    simp [parse_duration_suffix, hane, had, hmem,
          pyIntDigits_of_digits (List.cons_ne_nil a t) hd]

/-- Suffix of digits, a slash and a nonzero digit run: fraction multiplier. -/
lemma psuffix_frac {as bs : List Char} (hane : as ≠ [])
    (had : as.all Char.isDigit = true) (hbne : bs ≠ [])
    (hbd : bs.all Char.isDigit = true) (hz : digitsVal bs ≠ 0) :
    parse_duration_suffix (as ++ '/' :: bs) =
      some ⟨digitsVal as, digitsVal bs⟩ := by
  cases as with
  | nil => exact absurd rfl hane
  | cons a t =>
    have hai : a.isDigit = true := by
      rw [List.all_cons, Bool.and_eq_true] at had
      exact had.1
    have hanes : ¬(a = '/') := by
      intro e
      rw [e] at hai
      exact absurd hai (by decide)
    have hsplit := splitOnceSlash_append (not_slash_mem_of_digits had)
      (not_slash_mem_of_digits hbd)
    rw [List.cons_append] at hsplit
    have hmem : '/' ∈ a :: (t ++ '/' :: bs) := by simp
    simp [parse_duration_suffix, hanes, hai, hmem, hsplit,
          pyIntDigits_of_digits (List.cons_ne_nil a t) had,
          pyIntDigits_of_digits hbne hbd, hz]

/-- Suffix of digits followed by a bare trailing slash: the ValueError
fallback yields multiplier 1. -/
lemma psuffix_trailing {as : List Char} (hane : as ≠ [])
    (had : as.all Char.isDigit = true) :
    parse_duration_suffix (as ++ ['/']) = some ⟨1, 1⟩ := by
  cases as with
  | nil => exact absurd rfl hane
  | cons a t =>
    have hai : a.isDigit = true := by
      rw [List.all_cons, Bool.and_eq_true] at had
      exact had.1
    have hanes : ¬(a = '/') := by
      intro e
      rw [e] at hai
      exact absurd hai (by decide)
    have hsplit := @splitOnceSlash_append (a :: t) []
      (not_slash_mem_of_digits had) (by simp)
    rw [List.cons_append] at hsplit
    have hmem : '/' ∈ a :: (t ++ ['/']) := by simp
    simp [parse_duration_suffix, hanes, hai, hmem, hsplit,
          pyIntDigits_of_digits (List.cons_ne_nil a t) had, pyIntDigits]
    split <;> rfl

/-- Any admitted suffix whose slash denominator is absent, empty or nonzero
parses successfully. -/
lemma psuffix_isSome {cs : List Char} (h : suffix_in_grammar cs = true)
    (hden : afterSlash cs ≠ [] → digitsVal (afterSlash cs) ≠ 0) :
    (parse_duration_suffix cs).isSome = true := by
  have hsplit := List.takeWhile_append_dropWhile Char.isDigit cs
  have hd1d : (cs.takeWhile Char.isDigit).all Char.isDigit = true :=
    List.all_takeWhile
  unfold suffix_in_grammar at h
  cases hrc : cs.dropWhile Char.isDigit with
  | nil =>
    rw [hrc, List.append_nil] at hsplit
    cases hcs : cs with
    | nil => decide
    | cons a t =>
      rw [← hcs]
      rw [psuffix_digits (by rw [hcs]; exact List.cons_ne_nil a t)
            (by rw [← hsplit]; exact hd1d)]
      rfl
  | cons c r2 =>
    rw [hrc] at h hsplit
    rw [Bool.and_eq_true, beq_iff_eq] at h
    obtain ⟨hc, hr2d⟩ := h
    subst hc
    have hd1ns : '/' ∉ cs.takeWhile Char.isDigit := not_slash_mem_of_digits hd1d
    have has : afterSlash cs = r2 := by
      rw [← hsplit]
      exact afterSlash_append r2 hd1ns
    cases hd1c : cs.takeWhile Char.isDigit with
    | nil =>
      rw [hd1c, List.nil_append] at hsplit
      rw [← hsplit]
      cases hr2c : r2 with
      | nil => decide
      | cons b u =>
        have hz := hden (by rw [has, hr2c]; exact List.cons_ne_nil b u)
        rw [has, hr2c] at hz
        rw [psuffix_slash_digits (List.cons_ne_nil b u) (by rw [← hr2c]; exact hr2d) hz]
        rfl
    | cons a t =>
      rw [hd1c] at hsplit hd1ns
      have hd1d2 : (a :: t).all Char.isDigit = true := by
        rw [← hd1c]
        exact hd1d
      rw [← hsplit]
      cases hr2c : r2 with
      | nil =>
        rw [psuffix_trailing (List.cons_ne_nil a t) hd1d2]
        rfl
      | cons b u =>
        have hz := hden (by rw [has, hr2c]; exact List.cons_ne_nil b u)
        rw [has, hr2c] at hz
        rw [psuffix_frac (List.cons_ne_nil a t) hd1d2 (List.cons_ne_nil b u)
              (by rw [← hr2c]; exact hr2d) hz]
        rfl

/-- C9 (amended): over the token grammar's duration suffixes, the multiplier
is: 1 for the empty suffix; 1/2 for a bare slash; 1/d for a slash followed by
a nonzero digit run; the integer value of a bare digit run; a/b for digit
runs around a slash with nonzero denominator; and 1 again for the unparsable
trailing-slash form.  Parsing can only fail on a denominator whose digits
denote zero, a case the grammar admits (see C9_counterexample), so the
claim's unconditional no-failure reading is false. -/
theorem C9_duration_suffix_grammar :
    parse_duration_suffix [] = some ⟨1, 1⟩ ∧
    parse_duration_suffix ['/'] = some ⟨1, 2⟩ ∧
    (∀ ds : List Char, ds ≠ [] → ds.all Char.isDigit = true →
        digitsVal ds ≠ 0 →
        parse_duration_suffix ('/' :: ds) = some ⟨1, digitsVal ds⟩) ∧
    (∀ ds : List Char, ds ≠ [] → ds.all Char.isDigit = true →
        parse_duration_suffix ds = some ⟨digitsVal ds, 1⟩) ∧
    (∀ as bs : List Char, as ≠ [] → as.all Char.isDigit = true →
        bs ≠ [] → bs.all Char.isDigit = true → digitsVal bs ≠ 0 →
        parse_duration_suffix (as ++ '/' :: bs) =
          some ⟨digitsVal as, digitsVal bs⟩) ∧
    (∀ as : List Char, as ≠ [] → as.all Char.isDigit = true →
        parse_duration_suffix (as ++ ['/']) = some ⟨1, 1⟩) ∧
    (∀ cs : List Char, suffix_in_grammar cs = true →
        (afterSlash cs ≠ [] → digitsVal (afterSlash cs) ≠ 0) →
        (parse_duration_suffix cs).isSome = true) :=
  ⟨by decide, by decide,
   fun _ h1 h2 h3 => psuffix_slash_digits h1 h2 h3,
   fun _ h1 h2 => psuffix_digits h1 h2,
   fun _ _ h1 h2 h3 h4 h5 => psuffix_frac h1 h2 h3 h4 h5,
   fun _ h1 h2 => psuffix_trailing h1 h2,
   fun _ h1 h2 => psuffix_isSome h1 h2⟩

/-- C9 witness: the fraction clause of the amended theorem applied to the
suffix 3/2. -/
theorem C9_witness : parse_duration_suffix ['3', '/', '2'] = some ⟨3, 2⟩ := by
  have h := C9_duration_suffix_grammar.2.2.2.2.1 ['3'] ['2']
    (by decide) (by decide) (by decide) (by decide) (by decide)
  exact h.trans (by decide)

/-- C9 counterexample: the grammar admits the suffix /0, on which the reader
raises ZeroDivisionError instead of producing a multiplier, so the reader
does not survive every admitted suffix. -/
theorem C9_counterexample :
    suffix_in_grammar ['/', '0'] = true ∧
    parse_duration_suffix ['/', '0'] = none := by
  constructor <;> decide

/-- Every measure produced by the segment loop has a nonempty note list. -/
lemma parse_segs_nonempty :
    ∀ (segs : List (List Char)) (u : Frac) (num : Int) (ms : List Measure)
      (fin : Int), parse_segs segs u num = some (ms, fin) →
      ∀ m ∈ ms, m.notes ≠ [] := by
  intro segs
  induction segs with
  | nil =>
    intro u num ms fin h m hm
    simp only [parse_segs, Option.some.injEq, Prod.mk.injEq] at h
    obtain ⟨h1, _⟩ := h
    subst h1
    simp at hm
  | cons seg rest ih =>
    intro u num ms fin h m hm
    simp only [parse_segs] at h
    by_cases ht : (trimChars seg).isEmpty
    · rw [if_pos ht] at h
      exact ih u num ms fin h m hm
    · rw [if_neg ht] at h
      cases hp : parse_notes (trimChars seg) u with
      | none => simp [hp] at h
      | some notes =>
        simp only [hp] at h
        by_cases hne : notes.isEmpty
        · rw [if_pos hne] at h
          exact ih u num ms fin h m hm
        · rw [if_neg hne] at h
          cases hr : parse_segs rest u (num + 1) with
          | none => simp [hr] at h
          | some pr =>
            obtain ⟨ms2, fin2⟩ := pr
            simp only [hr, Option.some.injEq, Prod.mk.injEq] at h
            obtain ⟨h1, _⟩ := h
            subst h1
            rcases List.mem_cons.1 hm with hm | hm
            · subst hm
              intro e
              simp only [Measure.notes] at e
              rw [e] at hne
              exact hne rfl
            · exact ih u (num + 1) ms2 fin2 hr m hm

/-- Every measure produced by the music-line loop has a nonempty note list. -/
lemma read_music_lines_nonempty :
    ∀ (lines : List (List Char)) (u : Frac) (num : Int) (ms : List Measure)
      (fin : Int), read_music_lines lines u num = some (ms, fin) →
      ∀ m ∈ ms, m.notes ≠ [] := by
  intro lines
  induction lines with
  | nil =>
    intro u num ms fin h m hm
    simp only [read_music_lines, Option.some.injEq, Prod.mk.injEq] at h
    obtain ⟨h1, _⟩ := h
    subst h1
    simp at hm
  | cons line rest ih =>
    intro u num ms fin h m hm
    simp only [read_music_lines] at h
    cases h1 : parse_segs (splitChar '|' line) u num with
    | none => simp [h1] at h
    | some pr1 =>
      obtain ⟨ms1, n1⟩ := pr1
      simp only [h1] at h
      cases h2 : read_music_lines rest u n1 with
      | none => simp [h2] at h
      | some pr2 =>
        obtain ⟨ms2, n2⟩ := pr2
        simp only [h2, Option.some.injEq, Prod.mk.injEq] at h
        obtain ⟨hms, _⟩ := h
        subst hms
        rcases List.mem_append.1 hm with hm | hm
        · exact parse_segs_nonempty _ u num ms1 n1 h1 m hm
        · exact ih u n1 ms2 n2 h2 m hm

/-- C3 (amended): every measure retained by the compact-notation reader has
at least one note, for every input and unit length — in particular a
bar-delimited segment of whitespace or unrecognized characters yields no
measure; the XML reader, however, keeps measure elements with zero note
children, so the two adapters do not both drop empty measures. -/
theorem C3_reader_empty_measures :
    (∀ (lines : List (List Char)) (u : Frac) (ms : List Measure),
        read_measures lines u = some ms → ∀ m ∈ ms, m.notes ≠ []) ∧
    xml_part_measures c3_two_measure_part =
      some [{ number := 1, notes := [c3_parsed_note], width := none },
            { number := 2, notes := [], width := none }] := by
  refine ⟨?_, by decide⟩
  intro lines u ms h m hm
  unfold read_measures at h
  rw [Option.map_eq_some'] at h
  obtain ⟨⟨ms1, fin⟩, hN, hms⟩ := h
  simp only at hms
  subst hms
  exact read_music_lines_nonempty lines u 1 ms1 fin hN m hm

/-- C3 witness: the amended theorem applied to a concrete compact-notation
line whose first segment holds two notes. -/
theorem C3_witness : c3_abc_measure.notes ≠ [] :=
  C3_reader_empty_measures.1 c3_lines ⟨1, 4⟩ [c3_abc_measure] (by decide)
    c3_abc_measure (by decide)

/-- C3 counterexample: the XML reader returns a Score measure with zero
notes from a measure element with a number attribute and no note children,
so it is not true that every reader drops empty measures. -/
theorem C3_counterexample :
    xml_part_measures c3_single_part =
      some [{ number := 1, notes := [], width := none }] ∧
    ({ number := 1, notes := [], width := none } : Measure).notes = [] := by
  constructor <;> decide

/-- Writer loop against the grouping function: with the pending line shorter
than four entries and the flush counter congruent to its length mod 4, the
loop emits exactly the grouped lines of the pending entries followed by the
remaining rendered measures. -/
lemma abc_music_lines_eq_spec :
    ∀ (ms : List Measure) (count : Nat) (line : List String) (rs : List String),
      rendered_measures ms = some rs → line.length < 4 →
      count % 4 = line.length % 4 →
      abc_music_lines ms count line = some (spec_lines (line ++ rs)) := by
  intro ms
  induction ms with
  | nil =>
    intro count line rs h hlen hcnt
    simp only [rendered_measures, Option.some.injEq] at h
    subst h
    rw [List.append_nil]
    rcases line with _ | ⟨a, _ | ⟨b, _ | ⟨c, _ | ⟨d, t⟩⟩⟩⟩
    · rfl
    · rfl
    · rfl
    · rfl
    · simp at hlen
      omega
  | cons m rest ih =>
    intro count line rs h hlen hcnt
    simp only [rendered_measures] at h
    cases h1 : note_strs m.notes with
    | none => simp [h1] at h
    | some strs =>
      cases h2 : rendered_measures rest with
      | none => simp [h1, h2] at h
      | some rs2 =>
        simp only [h1, h2, Option.some.injEq] at h
        subst h
        simp only [abc_music_lines, h1]
        by_cases hse : strs.isEmpty
        · rw [if_pos hse, if_pos hse]
          exact ih count line rs2 h2 hlen hcnt
        · rw [if_neg hse, if_neg hse]
          by_cases hc4 : (count + 1) % 4 = 0
          · rw [if_pos hc4]
            have hl3 : line.length = 3 := by omega
            rcases line with _ | ⟨x, _ | ⟨y, _ | ⟨z, _ | ⟨w, t⟩⟩⟩⟩ <;>
              simp only [List.length] at hl3 <;> try omega
            have hrec := ih (count + 1) [] rs2 h2 (by norm_num) (by simp [hc4])
            rw [List.nil_append] at hrec
            rw [hrec]
            rfl
          · rw [if_neg hc4]
            have hlen2 : (line ++ [String.intercalate " " strs]).length < 4 := by
              simp only [List.length_append, List.length_cons, List.length_nil]
              omega
            have hcnt2 : (count + 1) % 4 =
                (line ++ [String.intercalate " " strs]).length % 4 := by
              simp only [List.length_append, List.length_cons, List.length_nil]
              omega
            have hrec := ih (count + 1) (line ++ [String.intercalate " " strs])
              rs2 h2 hlen2 hcnt2
            rw [hrec, List.append_assoc]
            rfl

/-- C7 (amended): for the first part's measures, the rendered measure
strings are grouped four per line with single-bar separators; every complete
group of four, a complete final group included, is terminated by a single
bar, and only a nonempty incomplete final group receives the double-bar
terminator, so a measure count that is an exact positive multiple of four
produces no double bar (see C7_counterexample). -/
theorem C7_measure_grouping :
    (∀ (ms : List Measure) (rs : List String),
        rendered_measures ms = some rs →
        abc_write_music ms = some (spec_lines rs)) ∧
    spec_lines ["a", "b", "c", "d"] = ["a | b | c | d |"] ∧
    spec_lines ["a", "b", "c", "d", "e"] = ["a | b | c | d |", "e ||"] ∧
    spec_lines ["a"] = ["a ||"] ∧
    spec_lines [] = [] := by
  refine ⟨?_, by decide, by decide, by decide, by decide⟩
  intro ms rs h
  have hrec := abc_music_lines_eq_spec ms 0 [] rs h (by norm_num) (by norm_num)
  rw [List.nil_append] at hrec
  exact hrec

/-- C7 witness: the grouping theorem applied to five one-note measures. -/
theorem C7_witness :
    abc_write_music [c7_measure, c7_measure, c7_measure, c7_measure, c7_measure] =
      some (spec_lines ["C", "C", "C", "C", "C"]) :=
  C7_measure_grouping.1
    [c7_measure, c7_measure, c7_measure, c7_measure, c7_measure]
    ["C", "C", "C", "C", "C"] (by decide)

/-- C7 counterexample: four rendered measures, an exact multiple of four,
produce the single music line C | C | C | C | ending in a single bar — the
double-bar terminator claimed for a complete last group never appears. -/
theorem C7_counterexample :
    abc_write_music [c7_measure, c7_measure, c7_measure, c7_measure] =
      some ["C | C | C | C |"] ∧
    abc_write_music [c7_measure, c7_measure, c7_measure, c7_measure] ≠
      some ["C | C | C | C ||"] := by
  constructor <;> decide

end Musiz
